import Mathlib

/-!
# erc20-scraper: a shallow embedding of `main.go`

The Go program crawls the Etherscan token listing with the colly library,
follows the token links of each listing page, extracts name, symbol and
contract address from each token page and writes the collected map to a JSON
file.

The embedding keeps the program's own functions (`parseSymbol`,
`writeMetadataJson`, the three `OnHTML` handlers, `scrapeTokens`, `main`) and
models the library calls they make:

* `strings.Split`, `strings.ToLower`, `strconv.Atoi`, `regexp.MatchString`
  and `fmt.Sprintf("%d")` as functions on strings;
* a run-time panic as the `error` case of `Except Panic`;
* the web as a function from a URL to a `Response`: the outcome of one
  `c.Visit` call, with the parts of the parsed document the three selectors
  read, and with the outcomes of the nested visits the token-link handler makes
  (colly runs a visit synchronously, handlers in registration order);
* the unbuffered channel `numPagesCh` as the list of values that goroutines
  stand ready to send, of which the receive takes one, chosen by the scheduler;
* Go's `int` as an integer wrapped to 64 bits;
* the loop over listing pages with a bound on its iterations (fuel), so that a
  run that never leaves the loop shows as a run that exhausts every bound.

Log output has no effect on the state and is left out.
-/

namespace Erc20Scraper

/-! ## Data model -/

/-- The record `TokenMetadata` of `main.go`. -/
structure TokenMetadata where
  Name : String
  Symbol : String
  ContractAddress : String
  deriving DecidableEq, Repr

/-- The Go map `addressToTokenMetadata : map[string]TokenMetadata`. -/
abbrev ResultSet := String → Option TokenMetadata

/-- The map `make(map[string]TokenMetadata)` creates: no key is present. -/
def emptyResults : ResultSet := fun _ => none

/-- The map after the assignment `m[key] = value`. -/
def mapSet (m : ResultSet) (key : String) (value : TokenMetadata) : ResultSet :=
  fun k => if k = key then some value else m k

/-- A Go run-time panic. The only one the program can raise is the index
expression `split[1]` of `parseSymbol`. -/
inductive Panic where
  | indexOutOfRange (index length : Nat)
  deriving DecidableEq, Repr

/-! ## Library functions on strings -/

/-- The fields of `strings.Split(s, string(sep))` for a one-character
separator: the text is cut at every occurrence of the separator, and an empty
text gives one empty field. -/
def splitChars (sep : Char) : List Char → List (List Char)
  | [] => [[]]
  | c :: cs =>
    if c = sep then [] :: splitChars sep cs
    else
      match splitChars sep cs with
      | [] => [[c]]
      | w :: ws => (c :: w) :: ws

/-- The call `strings.Split(s, " ")`. -/
def stringsSplit (s : String) (sep : Char) : List String :=
  (splitChars sep s.data).map String.mk

/-- The function `parseSymbol` of `main.go`: `strings.Split(supplyStr, " ")[1]`.
The index expression panics when the split has fewer than two fields. -/
def parseSymbol (supplyStr : String) : Except Panic String :=
  let split := stringsSplit supplyStr ' '
  match split[1]? with
  | some symbol => .ok symbol
  | none => .error (.indexOutOfRange 1 split.length)

/-- The part of a text strictly between its first space and its second space,
or the end of the text when there is no second space (the wording of the
specification for the symbol). -/
def betweenFirstAndSecondSpace (s : List Char) : List Char :=
  ((s.dropWhile (fun c => c ≠ ' ')).drop 1).takeWhile (fun c => c ≠ ' ')

/-! ## `strconv.Atoi` and the page-count handler -/

/-- Width of Go's `int` on the 64-bit platforms the program is built for. -/
def intSize : Nat := 64

/-- Largest value of Go's `int`. -/
def maxInt : Int := 2 ^ (intSize - 1) - 1

/-- Smallest value of Go's `int`. -/
def minInt : Int := -(2 ^ (intSize - 1))

/-- The two errors of `strconv`: `ErrSyntax` and `ErrRange`. -/
inductive AtoiError where
  | invalidSyntax
  | outOfRange
  deriving DecidableEq, Repr

/-- The digit loop of `strconv.ParseUint(s, 10, 64)`: a character that is not
a decimal digit is a syntax error, a value that leaves the unsigned 64-bit
range is a range error, whichever comes first. -/
def parseUintLoop : List Char → Nat → Except AtoiError Nat
  | [], n => .ok n
  | c :: cs, n =>
    if c.isDigit then
      let n1 := n * 10 + (c.toNat - 48)
      if 2 ^ intSize ≤ n1 then .error .outOfRange else parseUintLoop cs n1
    else .error .invalidSyntax

/-- The call `strconv.ParseUint(s, 10, 64)`: an empty text is a syntax error. -/
def parseUint (s : List Char) : Except AtoiError Nat :=
  match s with
  | [] => .error .invalidSyntax
  | _ => parseUintLoop s 0

/-- The range check of `strconv.ParseInt` on the unsigned value `un` of the
digits: the signed value has to fit in `int`. -/
def checkRange (neg : Bool) (un : Nat) : Except AtoiError Int :=
  if !neg && decide (2 ^ (intSize - 1) ≤ un) then .error .outOfRange
  else if neg && decide (2 ^ (intSize - 1) < un) then .error .outOfRange
  else .ok (if neg then -(un : Int) else (un : Int))

/-- The call `strconv.Atoi(s)`: an optional sign, then `ParseUint`, then the
check that the signed value fits in `int`. -/
def atoi (s : String) : Except AtoiError Int :=
  match s.data with
  | [] => .error .invalidSyntax
  | c :: cs =>
    let neg := decide (c = '-')
    let digits := if c = '-' ∨ c = '+' then cs else c :: cs
    match parseUint digits with
    | .error e => .error e
    | .ok un => checkRange neg un

/-- The value the page-count handler sends into `numPagesCh` for the text of
the matched element: the parsed number, or `1` when `Atoi` returns an error. -/
def pageCountHandler (text : String) : Int :=
  match atoi text with
  | .error _ => 1
  | .ok numPages => numPages

/-- The number a non-empty run of decimal digits denotes, read positionally;
`none` for an empty run or a run with another character in it. -/
def decimalValue (ds : List Char) : Option Nat :=
  if ds ≠ [] ∧ ds.all Char.isDigit = true
  then some (Nat.ofDigits 10 (ds.reverse.map (fun c => c.toNat - 48)))
  else none

/-- The integer a text denotes as a base-10 numeral, in the specification's
sense: an optional sign followed by one or more decimal digits; `none` for any
other text. -/
def denotes (s : String) : Option Int :=
  match s.data with
  | [] => none
  | c :: cs =>
    if c = '-' then (decimalValue cs).map (fun n => -(n : Int))
    else if c = '+' then (decimalValue cs).map (fun n => (n : Int))
    else (decimalValue (c :: cs)).map (fun n => (n : Int))

/-! ## `strings.TrimSpace`, `strings.ToLower` and the route test -/

/-- The predicate `unicode.IsSpace`: the characters with Unicode's White Space
property. -/
def isSpace (c : Char) : Bool :=
  let n := c.toNat
  decide (9 ≤ n ∧ n ≤ 13) || n == 32 || n == 0x85 || n == 0xA0 || n == 0x1680
  || decide (0x2000 ≤ n ∧ n ≤ 0x200A) || n == 0x2028 || n == 0x2029 || n == 0x202F
  || n == 0x205F || n == 0x3000

/-- The call `strings.TrimSpace(s)`: the text without its leading and trailing
white space. -/
def trimSpace (s : String) : String :=
  String.mk ((s.data.dropWhile isSpace).reverse.dropWhile isSpace).reverse


/-- The rune map of `strings.ToLower`: an ASCII rune goes through the ASCII
rule of `unicode.ToLower` (`A`..`Z` move up by 32), any other rune through the
Unicode case table, which is a parameter of the model. -/
def toLowerRune (caseTable : Char → Char) (c : Char) : Char :=
  if c.toNat < 128 then c.toLower else caseTable c

/-- The call `strings.ToLower(s)`. -/
def stringsToLower (caseTable : Char → Char) (s : String) : String :=
  String.mk (s.data.map (toLowerRune caseTable))

/-- The literal text of the pattern in `regexp.MatchString("/token/.*", path)`. -/
def tokenRouteLiteral : List Char := "/token/".data

/-- The call `regexp.MatchString("/token/.*", path)`. The pattern carries no
anchor, so the search succeeds as soon as the literal `/token/` starts at some
position of the path; the trailing `.*` also matches the empty text. -/
def isTokenPage (path : String) : Bool :=
  path.data.tails.any (fun t => tokenRouteLiteral.isPrefixOf t)

/-! ## The crawl -/

/-- The outcome of one `c.Visit(url)` call. `fetchError` stands for a visit
that runs no handler (network or HTTP failure, a URL already visited, content
that is not HTML). `page` is a fetched document, reduced to what the three
selectors of `scrapeTokens` read from it:

* `tokenCells`: for each element matching the token-cell selector, in document
  order, the outcome of the nested `c.Visit` the token-link handler makes;
* `pageCountTexts`: the text of each element matching the pagination selector;
* `name`, `supply`, `contract`: the text of the elements that the breadcrumb,
  summary-row and contract-row selectors match under the single `html` element,
  as it stands in the document (white space included), `none` when no element
  matches. -/
inductive Response where
  | fetchError : Response
  | page (path : String) (tokenCells : List Response) (pageCountTexts : List String)
      (name supply contract : Option String) : Response

/-- The call `e.ChildText(selector)`, which colly defines as
`strings.TrimSpace(e.DOM.Find(selector).Text())`: the text of the matched
elements without its leading and trailing white space, and the empty string
when nothing matches. -/
def childText (found : Option String) : String :=
  trimSpace (found.getD "")

/-- The state the handlers share: the map `addressToTokenMetadata` and the
values that goroutines of the page-count handler stand ready to send into
`numPagesCh`, in the order the goroutines were started. -/
structure CrawlState where
  results : ResultSet
  numPagesCh : List Int

/-- The handler registered on `"html"` (lines 76-98): on a path the route test
accepts it reads name, summary text and contract address, and stores the record
under the lowercased address; on any other path it does nothing. -/
def htmlHandler (caseTable : Char → Char) (path : String)
    (name supply contract : Option String) (m : ResultSet) : Except Panic ResultSet :=
  if isTokenPage path then
    let name := childText name
    let supplyStr := childText supply
    match parseSymbol supplyStr with
    | .error p => .error p
    | .ok symbol =>
      let contractAddress := stringsToLower caseTable (childText contract)
      .ok (mapSet m contractAddress
        { Name := name, Symbol := symbol, ContractAddress := contractAddress })
  else .ok m

mutual
/-- One `c.Visit` call: colly runs the `OnHTML` callbacks in the order they were
registered. The token-link handler visits the link of every token cell, the
page-count handler starts one sending goroutine per pagination element, then
the `html` handler runs. A panic in a handler unwinds the whole call. -/
def visit (caseTable : Char → Char) : Response → CrawlState → Except Panic CrawlState
  | .fetchError, st => .ok st
  | .page path tokenCells pageCountTexts name supply contract, st =>
    match visitCells caseTable tokenCells st with
    | .error p => .error p
    | .ok st1 =>
      let ch := st1.numPagesCh ++ pageCountTexts.map pageCountHandler
      match htmlHandler caseTable path name supply contract st1.results with
      | .error p => .error p
      | .ok m => .ok { results := m, numPagesCh := ch }
/-- The nested visits of the token-link handler, one per token cell. -/
def visitCells (caseTable : Char → Char) : List Response → CrawlState → Except Panic CrawlState
  | [], st => .ok st
  | r :: rs, st =>
    match visit caseTable r st with
    | .error p => .error p
    | .ok st1 => visitCells caseTable rs st1
end

/-- Go's `int` arithmetic: a result outside the 64-bit range wraps around. -/
def wrapInt (x : Int) : Int :=
  (x + 2 ^ (intSize - 1)) % 2 ^ intSize - 2 ^ (intSize - 1)

/-- The URL `fmt.Sprintf("https://etherscan.io/tokens?p=%d", i)`. -/
def listingUrl (i : Int) : String :=
  "https://etherscan.io/tokens?p=" ++ toString i

/-- Everything outside the program that a run depends on. -/
structure World where
  /-- Unicode lower-case table for the runes above ASCII. -/
  caseTable : Char → Char
  /-- Outcome of the visit `scrapeTokens` itself makes to a listing URL. -/
  fetch : String → Response
  /-- Scheduler choice: which ready sender the receive on `numPagesCh` meets. -/
  sched : Nat
  /-- Error of `json.MarshalIndent`, if any. -/
  marshalErr : Option String
  /-- Error of `ioutil.WriteFile` for a file name, if any. -/
  writeFileErr : String → Option String

/-- The constant `DefaultMetadataFile`. -/
def DefaultMetadataFile : String := "resources/tokenMetadata.json"

/-- The function `writeMetadataJson`: `.ok ()` is the `nil` error. -/
def writeMetadataJson (w : World) (_addressToTokenMetadata : ResultSet)
    (filename : String) : Except String Unit :=
  match w.marshalErr with
  | some err => .error ("marshaling metadata json: " ++ err)
  | none =>
    match w.writeFileErr filename with
    | some err => .error ("writing metadata json to file: " ++ err)
    | none => .ok ()

/-- The receive `<-numPagesCh`: one of the ready senders is met; with no sender
the receive never returns. -/
def recv (ch : List Int) (sched : Nat) : Option Int :=
  ch.get? (sched % ch.length)

/-- Result of running the loop over listing pages with a bound on the number of
iterations. -/
inductive LoopResult where
  | outOfFuel : LoopResult
  | panicked (p : Panic) (visited : List String) : LoopResult
  | done (st : CrawlState) (visited : List String) : LoopResult

/-- The loop `for i := 2; i <= numPages; i++ { c.Visit(listingUrl i) }`, run for
at most `fuel` iterations. `visited` collects the URLs passed to `c.Visit`. -/
def listingLoop (w : World) : Nat → Int → Int → CrawlState → List String → LoopResult
  | 0, i, numPages, st, visited =>
    if i ≤ numPages then .outOfFuel else .done st visited
  | fuel + 1, i, numPages, st, visited =>
    if i ≤ numPages then
      match visit w.caseTable (w.fetch (listingUrl i)) st with
      | .error p => .panicked p (visited ++ [listingUrl i])
      | .ok st1 =>
        listingLoop w fuel (wrapInt (i + 1)) numPages st1 (visited ++ [listingUrl i])
    else .done st visited

/-- How a run of `scrapeTokens` ends. -/
inductive Outcome where
  /-- A handler panicked: the process dies before `writeMetadataJson`. -/
  | panicked (p : Panic) (visited : List String) : Outcome
  /-- No goroutine ever sends: the receive on `numPagesCh` never returns. -/
  | blocked (visited : List String) (results : ResultSet) : Outcome
  /-- The function returned; `persist` is what `writeMetadataJson` returned. -/
  | finished (visited : List String) (results : ResultSet)
      (persist : Except String Unit) : Outcome

/-- The function `scrapeTokens`, with the loop bounded by `fuel`; `none` means
the loop was still running when the fuel ran out. -/
def scrapeTokens (w : World) (outputFile : String) (fuel : Nat) : Option Outcome :=
  let addressToTokenMetadata := emptyResults
  match visit w.caseTable (w.fetch (listingUrl 1))
      { results := addressToTokenMetadata, numPagesCh := [] } with
  | .error p => some (.panicked p [listingUrl 1])
  | .ok st1 =>
    match recv st1.numPagesCh w.sched with
    | none => some (.blocked [listingUrl 1] st1.results)
    | some numPages =>
      match listingLoop w fuel 2 numPages st1 [listingUrl 1] with
      | .outOfFuel => none
      | .panicked p visited => some (.panicked p visited)
      | .done st visited =>
        -- the error value returned by writeMetadataJson is dropped (line 117)
        some (.finished visited st.results (writeMetadataJson w st.results outputFile))

/-- The process exit status of `main`, which only calls `scrapeTokens`: `0` when
it returns and `2` when the Go runtime reports a panic. A run that is stuck in
the receive has no status here: it hangs until it is killed from outside or by
the runtime. -/
def exitStatus : Outcome → Option Nat
  | .panicked _ _ => some 2
  | .blocked _ _ => none
  | .finished _ _ _ => some 0

/-- The function `main`: the flag `-m` overrides the default output file. -/
def main (w : World) (flagM : Option String) (fuel : Nat) : Option Outcome :=
  scrapeTokens w (flagM.getD DefaultMetadataFile) fuel

/-- The page count `scrapeTokens` obtains from listing page 1: the value the
receive on `numPagesCh` returns after the first visit, `none` when the visit
panics or no goroutine ever sends. -/
def discoverPageCount (w : World) : Option Int :=
  match visit w.caseTable (w.fetch (listingUrl 1))
      { results := emptyResults, numPagesCh := [] } with
  | .error _ => none
  | .ok st1 => recv st1.numPagesCh w.sched

/-! ## Vocabulary for the claims -/

/-- The page numbers `i, i+1, ..., i+k-1`. -/
def pagesFrom (i : Int) (k : Nat) : List Int :=
  (List.range k).map (fun (j : Nat) => i + Int.ofNat j)

/-- The listing pages a complete crawl with page count `numPages` visits: page 1
and then the pages `2 .. numPages`. -/
def listingPages (numPages : Int) : List Int :=
  1 :: pagesFrom 2 (numPages - 1).toNat

/-- Visits to a list of listing pages, one after the other. -/
def visitPages (w : World) : List Int → CrawlState → Except Panic CrawlState
  | [], st => .ok st
  | i :: rest, st =>
    match visit w.caseTable (w.fetch (listingUrl i)) st with
    | .error p => .error p
    | .ok st1 => visitPages w rest st1

/-- The map after the assignments `m[key] = value` for a list of entries. -/
def applyEntries (m : ResultSet) (entries : List (String × TokenMetadata)) : ResultSet :=
  entries.foldl (fun acc e => mapSet acc e.1 e.2) m

/-- A well-formed detail page: the route test accepts its path, it has no token
cells, its name, summary and contract-address elements are all present, and the
summary text, as `ChildText` returns it, has a space before the symbol. -/
def isWellFormedDetail : Response → Bool
  | .page path [] _ (some _) (some supply) (some _) =>
    isTokenPage path && decide (' ' ∈ (childText (some supply)).data)
  | _ => false

/-- The outcome of the visit to a token link in a crawl with partial failures:
the fetch failed, or it gave a well-formed detail page. -/
def isDetailOutcome : Response → Bool
  | .fetchError => true
  | r => isWellFormedDetail r

/-- The outcome of the visit to a listing URL: the fetch failed, or it gave a
page that the route test rejects and whose token links all lead to detail
outcomes. -/
def isListingOutcome : Response → Bool
  | .fetchError => true
  | .page path tokenCells _ _ _ _ => !isTokenPage path && tokenCells.all isDetailOutcome

/-- The outcomes of the token-link visits made from a visited page. -/
def cellsOf : Response → List Response
  | .fetchError => []
  | .page _ tokenCells _ _ _ _ => tokenCells

/-- The entry a successfully fetched, well-formed detail page stands for: its
trimmed and lowercased contract address, and the record of its trimmed name,
the symbol in its trimmed summary text, and that address. A failed fetch stands
for no entry. -/
def entryOf (caseTable : Char → Char) : Response → Option (String × TokenMetadata)
  | .page path [] _ (some name) (some supply) (some contract) =>
    if isTokenPage path && decide (' ' ∈ (childText (some supply)).data) then
      some (stringsToLower caseTable (trimSpace contract),
        { Name := trimSpace name,
          Symbol := String.mk (betweenFirstAndSecondSpace (trimSpace supply).data),
          ContractAddress := stringsToLower caseTable (trimSpace contract) })
    else none
  | _ => none

/-- The outcomes of all token-link visits of a crawl over the given listing
pages, in the order of the visits. -/
def crawledDetails (w : World) (pages : List Int) : List Response :=
  pages.flatMap (fun i => cellsOf (w.fetch (listingUrl i)))

/-! ## Example crawls -/

/-- A well-formed detail page for a token `AAA`. -/
def detailA : Response :=
  .page "/token/0xAAA" [] [] (some "Alpha") (some "1,000 AAA") (some "0xAAA")

/-- A detail page for a token `BBB` with the given summary text. -/
def detailWithSummary (summary : String) : Response :=
  .page "/token/0xBBB" [] [] (some "Beta") (some summary) (some "0xBBB")

/-- A well-formed detail page for a token `CCC`. -/
def detailC : Response :=
  .page "/token/0xCCC" [] [] (some "Gamma") (some "5 CCC") (some "0xCCC")

/-- A well-formed detail page for a token `DDD`. -/
def detailD : Response :=
  .page "/token/0xDDD" [] [] (some "Delta") (some "77 DDD") (some "0xDDD")

/-- A world in which listing page 1 is the given page, every other listing URL
fails to load, and the file system reports the given write error. -/
def worldWith (page1 : Response) (writeErr : Option String) : World :=
  { caseTable := id
    fetch := fun url => if url = listingUrl 1 then page1 else .fetchError
    sched := 0
    marshalErr := none
    writeFileErr := fun _ => writeErr }

/-- Listing page 1 links to three tokens; the second detail page has the given
summary text. -/
def worldWithSummary (summary : String) : World :=
  worldWith
    (.page "/tokens" [detailA, detailWithSummary summary, detailC] ["1"] none none none) none

/-- A crawl of one listing page and one token, after which the output file
cannot be written. -/
def worldWriteFails : World :=
  worldWith (.page "/tokens" [detailA] ["1"] none none none)
    (some "open resources/tokenMetadata.json: no such file or directory")

/-- Listing page 1 loads and links to one token, but no element matches the
pagination selector, on the listing page or on the detail page. -/
def worldNoPagination : World :=
  worldWith (.page "/tokens" [detailA] [] none none none) none

/-- The fetch of listing page 1 fails. -/
def worldPage1Fails : World :=
  worldWith .fetchError none

/-- The pagination element of listing page 1 reads `9223372036854775807`, the
largest `int`. -/
def worldMaxPages : World :=
  worldWith (.page "/tokens" [] ["9223372036854775807"] none none none) none

/-- A crawl of two listing pages: page 1 links to `AAA`, to a token whose fetch
fails, and to `CCC`; page 2 links to `DDD`. -/
def worldPartialFailure : World :=
  { caseTable := id
    fetch := fun url =>
      if url = listingUrl 1 then
        .page "/tokens" [detailA, .fetchError, detailC] ["2"] none none none
      else if url = listingUrl 2 then
        .page "/tokens" [detailD] ["2"] none none none
      else .fetchError
    sched := 0
    marshalErr := none
    writeFileErr := fun _ => none }

/-- The crawl of `worldPartialFailure` cut down to listing page 1, on which no
element matches the pagination selector: the page links to `AAA`, to a token
whose fetch fails, and to `CCC`. -/
def worldPartialNoPagination : World :=
  worldWith (.page "/tokens" [detailA, .fetchError, detailC] [] none none none) none

/-- Two characters are the same letter up to casing: they are equal, or one is
an ASCII capital and the other the small letter 32 places above it, or neither
is white space, one of them lies above ASCII and the Unicode case table gives
the two the same lower-case form. -/
def sameLetter (caseTable : Char → Char) (x y : Char) : Bool :=
  x == y
  || (x.isUpper && y.toNat == x.toNat + 32)
  || (y.isUpper && x.toNat == y.toNat + 32)
  || (!isSpace x && !isSpace y
      && ((decide (128 ≤ x.toNat) && decide (128 ≤ y.toNat) && caseTable x == caseTable y)
        || (decide (128 ≤ x.toNat) && decide (y.toNat < 128) && caseTable x == y.toLower)
        || (decide (x.toNat < 128) && decide (128 ≤ y.toNat) && x.toLower == caseTable y)))

/-- Two texts differ only in letter casing: they have the same length and hold
the same letter up to casing at every position. -/
def differOnlyInCase (caseTable : Char → Char) (a b : String) : Bool :=
  decide (a.data.length = b.data.length)
  && (List.zip a.data b.data).all (fun p => sameLetter caseTable p.1 p.2)

/-! ## Lemmas on the library models -/

theorem splitChars_ne_nil (sep : Char) (l : List Char) : splitChars sep l ≠ [] := by
  cases l with
  | nil => simp [splitChars]
  | cons c cs =>
    by_cases h : c = sep
    · simp [splitChars, h]
    · cases hs : splitChars sep cs <;> simp [splitChars, h, hs]

theorem splitChars_head (sep : Char) (l : List Char) :
    (splitChars sep l).head? = some (l.takeWhile (fun c => c ≠ sep)) := by
  induction l with
  | nil => simp [splitChars]
  | cons c cs ih =>
    by_cases h : c = sep
    · simp [splitChars, h]
    · cases hs : splitChars sep cs with
      | nil => exact absurd hs (splitChars_ne_nil sep cs)
      | cons w ws =>
        rw [hs] at ih
        simp only [List.head?_cons, Option.some.injEq] at ih
        simp [splitChars, h, hs, ih]

theorem splitChars_get_one (sep : Char) (l : List Char) (h : sep ∈ l) :
    (splitChars sep l)[1]?
      = some (((l.dropWhile (fun c => c ≠ sep)).drop 1).takeWhile (fun c => c ≠ sep)) := by
  induction l with
  | nil => simp at h
  | cons c cs ih =>
    by_cases hc : c = sep
    · have hd := splitChars_head sep cs
      cases hs : splitChars sep cs with
      | nil => exact absurd hs (splitChars_ne_nil sep cs)
      | cons w ws =>
        rw [hs] at hd
        simp only [List.head?_cons, Option.some.injEq] at hd
        simp [splitChars, hc, hs, hd]
    · have hmem : sep ∈ cs := by
        rcases List.mem_cons.mp h with h1 | h1
        · exact absurd h1.symm hc
        · exact h1
      have ih1 := ih hmem
      cases hs : splitChars sep cs with
      | nil => exact absurd hs (splitChars_ne_nil sep cs)
      | cons w ws =>
        rw [hs] at ih1
        simpa [splitChars, hc, hs] using ih1

theorem splitChars_no_sep (sep : Char) (l : List Char) (h : sep ∉ l) :
    splitChars sep l = [l] := by
  induction l with
  | nil => simp [splitChars]
  | cons c cs ih =>
    have hc : c ≠ sep := fun e => h (by simp [e])
    have hcs : sep ∉ cs := fun e => h (by simp [e])
    simp [splitChars, hc, ih hcs]

theorem mem_of_mem_trimSpace (c : Char) (s : String) (h : c ∈ (trimSpace s).data) :
    c ∈ s.data := by
  simp only [trimSpace, List.mem_reverse] at h
  have h1 := (List.dropWhile_suffix isSpace).subset h
  rw [List.mem_reverse] at h1
  exact (List.dropWhile_suffix isSpace).subset h1

theorem isSpace_false_of_letter (c : Char) (h1 : 65 ≤ c.toNat) (h2 : c.toNat ≤ 122) :
    isSpace c = false := by
  simp only [isSpace, Bool.or_eq_false_iff, decide_eq_false_iff_not, beq_eq_false_iff_ne,
    ne_eq]
  omega

theorem childText_none : childText none = "" := rfl

theorem childText_some (t : String) : childText (some t) = trimSpace t := rfl

/-- Without a space in the text the index expression of `parseSymbol` panics. -/
theorem parseSymbol_no_space (s : String) (h : ' ' ∉ s.data) :
    parseSymbol s = .error (.indexOutOfRange 1 1) := by
  simp [parseSymbol, stringsSplit, splitChars_no_sep _ _ h]

/-- With a space in the text `parseSymbol` returns the second field. -/
theorem parseSymbol_of_space (s : String) (h : ' ' ∈ s.data) :
    parseSymbol s = .ok (String.mk (betweenFirstAndSecondSpace s.data)) := by
  have h1 := splitChars_get_one ' ' s.data h
  simp only [parseSymbol, stringsSplit, betweenFirstAndSecondSpace]
  rw [List.getElem?_map, h1]
  rfl

/-! ## C1 -/

/-- C1: for every summary text that contains a space, `parseSymbol` returns
element 1 of the text split on single spaces, which is the part of the text
strictly between the first space and the second space (or the end of the text
when there is no second space); and `parseSymbol "1,000,000 ABC"` is `"ABC"`. -/
theorem parseSymbol_second_field (s : String) (h : ' ' ∈ s.data) :
    (stringsSplit s ' ')[1]? = some (String.mk (betweenFirstAndSecondSpace s.data))
    ∧ parseSymbol s = .ok (String.mk (betweenFirstAndSecondSpace s.data))
    ∧ parseSymbol "1,000,000 ABC" = .ok "ABC" := by
  refine ⟨?_, parseSymbol_of_space s h, rfl⟩
  have h1 := splitChars_get_one ' ' s.data h
  simp only [stringsSplit, betweenFirstAndSecondSpace]
  rw [List.getElem?_map, h1]
  rfl

/-- C1 at the text `"12 XYZ tokens"`: the symbol is `"XYZ"`. -/
theorem parseSymbol_second_field_witness :
    ' ' ∈ "12 XYZ tokens".data
    ∧ parseSymbol "12 XYZ tokens" = .ok "XYZ" :=
  ⟨by decide, (parseSymbol_second_field "12 XYZ tokens" (by decide)).2.1⟩

/-! ## C3 -/

/-- The positional value of the digits `c :: cs`. -/
theorem digits_value_cons (c : Char) (cs : List Char) :
    Nat.ofDigits 10 ((c :: cs).reverse.map (fun c => c.toNat - 48))
      = (c.toNat - 48) * 10 ^ cs.length
        + Nat.ofDigits 10 (cs.reverse.map (fun c => c.toNat - 48)) := by
  simp [Nat.ofDigits_append, Nat.ofDigits_singleton]
  ring

/-- On a run of digits the loop of `ParseUint` returns the positional value,
unless that value leaves the unsigned 64-bit range. -/
theorem parseUintLoop_digits (ds : List Char) (n : Nat) (hn : n < 2 ^ intSize)
    (h : ds.all Char.isDigit = true) :
    parseUintLoop ds n
      = if n * 10 ^ ds.length + Nat.ofDigits 10 (ds.reverse.map (fun c => c.toNat - 48))
            < 2 ^ intSize
        then .ok (n * 10 ^ ds.length
            + Nat.ofDigits 10 (ds.reverse.map (fun c => c.toNat - 48)))
        else .error .outOfRange := by
  induction ds generalizing n with
  | nil => simp [parseUintLoop, hn]
  | cons c cs ih =>
    have hc : c.isDigit = true := by
      simp only [List.all_cons, Bool.and_eq_true] at h
      exact h.1
    have hcs : cs.all Char.isDigit = true := by
      simp only [List.all_cons, Bool.and_eq_true] at h
      exact h.2
    have hval : n * 10 ^ (c :: cs).length
        + Nat.ofDigits 10 ((c :: cs).reverse.map (fun c => c.toNat - 48))
        = (n * 10 + (c.toNat - 48)) * 10 ^ cs.length
          + Nat.ofDigits 10 (cs.reverse.map (fun c => c.toNat - 48)) := by
      rw [digits_value_cons, List.length_cons, pow_succ]
      ring
    rw [hval]
    simp only [parseUintLoop, hc, if_true]
    by_cases hov : 2 ^ intSize ≤ n * 10 + (c.toNat - 48)
    · have hpow : 1 ≤ 10 ^ cs.length := Nat.one_le_pow _ _ (by norm_num)
      have hbig : 2 ^ intSize ≤ (n * 10 + (c.toNat - 48)) * 10 ^ cs.length
          + Nat.ofDigits 10 (cs.reverse.map (fun c => c.toNat - 48)) :=
        le_trans hov (le_trans (Nat.le_mul_of_pos_right _ hpow) (Nat.le_add_right _ _))
      rw [if_pos hov, if_neg (not_lt.mpr hbig)]
    · rw [if_neg hov]
      exact ih _ (not_le.mp hov) hcs

/-- A character that is not a digit makes the loop of `ParseUint` fail. -/
theorem parseUintLoop_not_digits (ds : List Char) (n : Nat)
    (h : ds.all Char.isDigit = false) :
    ∃ e, parseUintLoop ds n = .error e := by
  induction ds generalizing n with
  | nil => simp at h
  | cons c cs ih =>
    by_cases hc : c.isDigit = true
    · have hcs : cs.all Char.isDigit = false := by
        simpa [List.all_cons, hc] using h
      simp only [parseUintLoop, hc, if_true]
      by_cases hov : 2 ^ intSize ≤ n * 10 + (c.toNat - 48)
      · exact ⟨_, by rw [if_pos hov]⟩
      · rw [if_neg hov]
        exact ih _ hcs
    · exact ⟨.invalidSyntax, by simp [parseUintLoop, hc]⟩

/-- The result of `ParseUint` on a text that denotes a number. -/
theorem parseUint_of_value (ds : List Char) (v : Nat) (h : decimalValue ds = some v) :
    parseUint ds = if v < 2 ^ intSize then .ok v else .error .outOfRange := by
  cases ds with
  | nil => simp [decimalValue] at h
  | cons c cs =>
    by_cases hd : (c :: cs).all Char.isDigit = true
    · have := parseUintLoop_digits (c :: cs) 0 (by simp [intSize]) hd
      simp only [zero_mul, zero_add] at this
      simp only [decimalValue, hd, ne_eq, reduceCtorEq, not_false_eq_true, and_self, if_true,
        Option.some.injEq] at h
      rw [← h]
      simpa [parseUint] using this
    · simp [decimalValue, hd] at h

/-- The result of `ParseUint` on a text that denotes no number. -/
theorem parseUint_of_none (ds : List Char) (h : decimalValue ds = none) :
    ∃ e, parseUint ds = .error e := by
  cases ds with
  | nil => exact ⟨.invalidSyntax, rfl⟩
  | cons c cs =>
    by_cases hd : (c :: cs).all Char.isDigit = true
    · simp [decimalValue, hd] at h
    · have h2 : (c :: cs).all Char.isDigit = false := by simpa using hd
      simpa [parseUint] using parseUintLoop_not_digits (c :: cs) 0 h2

/-- Sign, digits and range check together, against the denoted integer. -/
theorem atoi_core (neg : Bool) (ds : List Char) :
    (match (match parseUint ds with
        | .error e => (.error e : Except AtoiError Int)
        | .ok un => checkRange neg un) with
      | .error _ => (1 : Int)
      | .ok numPages => numPages)
      = (match (decimalValue ds).map (fun n => if neg then -(n : Int) else (n : Int)) with
        | some v => if minInt ≤ v ∧ v ≤ maxInt then v else 1
        | none => 1) := by
  cases hv : decimalValue ds with
  | none =>
    obtain ⟨e, he⟩ := parseUint_of_none ds hv
    simp [he]
  | some v =>
    rw [parseUint_of_value ds v hv]
    by_cases h64 : v < 2 ^ intSize
    · rw [if_pos h64]
      cases neg with
      | false =>
        by_cases h63 : 2 ^ (intSize - 1) ≤ v
        · have : ¬ ((v : Int) ≤ maxInt) := by
            simp only [maxInt, intSize] at *
            omega
          simp [checkRange, h63, this]
        · have h1 : minInt ≤ (v : Int) := by
            simp only [minInt, intSize] at *
            omega
          have h2 : (v : Int) ≤ maxInt := by
            simp only [maxInt, intSize] at *
            omega
          simp [checkRange, h63, h1, h2]
      | true =>
        by_cases h63 : 2 ^ (intSize - 1) < v
        · have : ¬ (minInt ≤ -(v : Int)) := by
            simp only [minInt, intSize] at *
            omega
          simp [checkRange, h63, this]
        · have h1 : minInt ≤ -(v : Int) := by
            simp only [minInt, intSize] at *
            omega
          have h2 : -(v : Int) ≤ maxInt := by
            simp only [maxInt, intSize] at *
            omega
          simp [checkRange, h63, h1, h2]
    · rw [if_neg h64]
      cases neg with
      | false =>
        have : ¬ ((v : Int) ≤ maxInt) := by
          simp only [maxInt, intSize] at *
          omega
        simp [this]
      | true =>
        have : ¬ (minInt ≤ -(v : Int)) := by
          simp only [minInt, intSize] at *
          omega
        simp [this]

/-- C3, as the code has it: the page count the page-count handler computes is
the integer the text denotes when the text is an optionally signed run of
decimal digits whose value fits in Go's 64-bit `int`, and is `1` for every other
text, among them `""` and `"abc"`; the handler returns a value for every text. -/
theorem pageCountHandler_eq (text : String) :
    pageCountHandler text
      = (match denotes text with
        | some v => if minInt ≤ v ∧ v ≤ maxInt then v else 1
        | none => 1)
    ∧ pageCountHandler "" = 1 ∧ pageCountHandler "abc" = 1
    ∧ pageCountHandler "10" = 10 := by
  refine ⟨?_, rfl, rfl, rfl⟩
  unfold pageCountHandler atoi denotes
  cases hs : text.data with
  | nil => rfl
  | cons c cs =>
    simp only
    by_cases hm : c = '-'
    · have := atoi_core true cs
      simpa [hm] using this
    · by_cases hp : c = '+'
      · have := atoi_core false cs
        simpa [hm, hp] using this
      · have := atoi_core false (c :: cs)
        simpa [hm, hp] using this

/-- C3 as stated fails: the text `"9223372036854775808"` is a valid base-10
integer that denotes `2 ^ 63`, and the page count computed for it is `1`, not
the denoted integer. -/
theorem pageCountHandler_out_of_range :
    denotes "9223372036854775808" = some 9223372036854775808
    ∧ pageCountHandler "9223372036854775808" = 1
    ∧ pageCountHandler "9223372036854775808" ≠ 9223372036854775808 :=
  ⟨rfl, rfl, by decide⟩

/-! ## The route test and the `html` handler -/

theorem isTokenPage_iff (path : String) :
    isTokenPage path = true
      ↔ ∃ pre post : String, path = pre ++ "/token/" ++ post := by
  simp only [isTokenPage, List.any_eq_true, List.mem_tails, List.isPrefixOf_iff_prefix]
  constructor
  · rintro ⟨t, ⟨pre, hpre⟩, ⟨post, hpost⟩⟩
    refine ⟨String.mk pre, String.mk post, ?_⟩
    apply String.ext
    simp only [String.data_append]
    rw [← hpre, ← hpost, List.append_assoc]
    rfl
  · rintro ⟨pre, post, h⟩
    refine ⟨tokenRouteLiteral ++ post.data, ⟨pre.data, ?_⟩, ⟨post.data, rfl⟩⟩
    rw [h]
    simp only [String.data_append, List.append_assoc]
    rfl

theorem htmlHandler_other_path (U : Char → Char) (path : String)
    (name supply contract : Option String) (m : ResultSet)
    (h : isTokenPage path = false) :
    htmlHandler U path name supply contract m = .ok m := by
  simp [htmlHandler, h]

theorem htmlHandler_token_path (U : Char → Char) (path : String)
    (name supply contract : Option String) (m : ResultSet) (symbol : String)
    (h : isTokenPage path = true) (hs : parseSymbol (childText supply) = .ok symbol) :
    htmlHandler U path name supply contract m
      = .ok (mapSet m (stringsToLower U (childText contract))
          { Name := childText name, Symbol := symbol,
            ContractAddress := stringsToLower U (childText contract) }) := by
  simp [htmlHandler, h, hs]

theorem htmlHandler_panics (U : Char → Char) (path : String)
    (name supply contract : Option String) (m : ResultSet)
    (h : isTokenPage path = true) (hs : ' ' ∉ (childText supply).data) :
    htmlHandler U path name supply contract m = .error (.indexOutOfRange 1 1) := by
  simp [htmlHandler, h, parseSymbol_no_space _ hs]

/-- The handler works on the element texts as `ChildText` returns them: white
space around name, summary and address is dropped before they are used, and a
summary text whose only space is a leading or a trailing one has no symbol. -/
theorem htmlHandler_trims :
    htmlHandler id "/token/0xAAA" (some " Alpha ") (some " 1,000 AAA ") (some " 0xAAA ")
        emptyResults
      = .ok (mapSet emptyResults "0xaaa"
          { Name := "Alpha", Symbol := "AAA", ContractAddress := "0xaaa" })
    ∧ htmlHandler id "/token/0xAAA" (some "Alpha") (some "1,000 ") (some "0xAAA") emptyResults
      = .error (.indexOutOfRange 1 1)
    ∧ htmlHandler id "/token/0xAAA" (some "Alpha") (some " ABC") (some "0xAAA") emptyResults
      = .error (.indexOutOfRange 1 1) :=
  ⟨rfl, rfl, rfl⟩

/-! ## C10 -/

/-- C10, as the code has it: the `html` handler treats a page as a token detail
page exactly when its path contains `/token/` at some position, not only at the
start. On every path without `/token/` it leaves the ResultSet unchanged; on a
path with `/token/` whose summary text has a symbol it stores the record under
the lowercased contract address. -/
theorem htmlHandler_route (U : Char → Char) (path : String)
    (name supply contract : Option String) (m : ResultSet) :
    (isTokenPage path = true ↔ ∃ pre post : String, path = pre ++ "/token/" ++ post)
    ∧ (isTokenPage path = false → htmlHandler U path name supply contract m = .ok m)
    ∧ (isTokenPage path = true → ∀ symbol, parseSymbol (childText supply) = .ok symbol →
        htmlHandler U path name supply contract m
          = .ok (mapSet m (stringsToLower U (childText contract))
              { Name := childText name, Symbol := symbol,
                ContractAddress := stringsToLower U (childText contract) })) :=
  ⟨isTokenPage_iff path, htmlHandler_other_path U path name supply contract m,
    fun h symbol hs => htmlHandler_token_path U path name supply contract m symbol h hs⟩

/-- C10 as stated fails: the path `/foo/token/x` does not begin with `/token/`,
yet the handler takes the page for a token page and writes to the ResultSet. -/
theorem htmlHandler_foo_token_x :
    tokenRouteLiteral.isPrefixOf "/foo/token/x".data = false
    ∧ htmlHandler id "/foo/token/x" (some "Foo") (some "1,000 FOO") (some "0xAB") emptyResults
        = .ok (mapSet emptyResults "0xab"
            { Name := "Foo", Symbol := "FOO", ContractAddress := "0xab" })
    ∧ mapSet emptyResults "0xab"
          { Name := "Foo", Symbol := "FOO", ContractAddress := "0xab" } "0xab"
        ≠ emptyResults "0xab" := by
  refine ⟨rfl, rfl, ?_⟩
  simp [mapSet, emptyResults]

/-! ## C6 -/

/-- C6, as the code has it: on a fetched detail page whose summary text, as
`ChildText` returns it (without leading and trailing white space), contains a
space, the handler writes an entry whether or not the name element and the
contract-address element are located. A missing element contributes the empty
string: without the contract-address element the entry goes under the empty
key, without the name element it is stored with an empty name. -/
theorem htmlHandler_writes_without_elements (U : Char → Char) (path : String)
    (name supply contract : Option String) (m : ResultSet)
    (hpath : isTokenPage path = true) (hspace : ' ' ∈ (childText supply).data) :
    ∃ m1 md, htmlHandler U path name supply contract m = .ok m1
      ∧ m1 (stringsToLower U (childText contract)) = some md
      ∧ md.Name = childText name
      ∧ md.ContractAddress = stringsToLower U (childText contract)
      ∧ (name = none → md.Name = "")
      ∧ (contract = none → m1 "" = some md ∧ md.ContractAddress = "") := by
  have hs := parseSymbol_of_space _ hspace
  refine ⟨_, TokenMetadata.mk (childText name)
      (String.mk (betweenFirstAndSecondSpace (childText supply).data))
      (stringsToLower U (childText contract)),
    htmlHandler_token_path U path name supply contract m _ hpath hs, ?_, rfl, rfl, ?_, ?_⟩
  · simp [mapSet]
  · intro hn
    subst hn
    rfl
  · intro hc
    subst hc
    have : stringsToLower U (childText none) = "" := rfl
    rw [this]
    simp [mapSet]

/-- C6 theorem at a detail page that has neither the name element nor the
contract-address element, and whose summary element reads `" 1,000,000 ABC "`
with white space around it. -/
theorem htmlHandler_writes_without_elements_witness :
    isTokenPage "/token/0xabc" = true
    ∧ ' ' ∈ (childText (some " 1,000,000 ABC ")).data
    ∧ ∃ m1 md, htmlHandler id "/token/0xabc" none (some " 1,000,000 ABC ") none emptyResults
          = .ok m1
      ∧ m1 (stringsToLower id (childText none)) = some md
      ∧ md.Name = childText none
      ∧ md.ContractAddress = stringsToLower id (childText none)
      ∧ ((none : Option String) = none → md.Name = "")
      ∧ ((none : Option String) = none → m1 "" = some md ∧ md.ContractAddress = "") :=
  ⟨rfl, by decide,
    htmlHandler_writes_without_elements id "/token/0xabc" none (some " 1,000,000 ABC ") none
      emptyResults rfl (by decide)⟩

/-- C6 as stated fails: on a fetched detail page that lacks both the name
element and the contract-address element the handler stores an entry under the
empty key, with empty name and empty address. -/
theorem htmlHandler_stores_empty_key :
    htmlHandler id "/token/0xabc" none (some "1,000,000 ABC") none emptyResults
        = .ok (mapSet emptyResults "" { Name := "", Symbol := "ABC", ContractAddress := "" })
    ∧ mapSet emptyResults "" { Name := "", Symbol := "ABC", ContractAddress := "" } ""
        = some { Name := "", Symbol := "ABC", ContractAddress := "" } :=
  ⟨rfl, rfl⟩

/-! ## C5 -/

theorem toLower_upper (c : Char) (h1 : 65 ≤ c.toNat) (h2 : c.toNat ≤ 90) :
    c.toLower.toNat = c.toNat + 32 := by
  have hx : c = Char.ofNat c.toNat := (Char.ofNat_toNat c).symm
  generalize c.toNat = n at *
  subst hx
  interval_cases n <;> rfl

theorem toLower_not_upper (c : Char) (h : ¬ (65 ≤ c.toNat ∧ c.toNat ≤ 90)) :
    c.toLower = c := by
  simp only [Char.toLower]
  rw [if_neg]
  simpa using h

theorem char_eq_of_toNat_eq (x y : Char) (h : x.toNat = y.toNat) : x = y := by
  rw [← Char.ofNat_toNat x, ← Char.ofNat_toNat y, h]

theorem isUpper_iff (c : Char) : c.isUpper = true ↔ 65 ≤ c.toNat ∧ c.toNat ≤ 90 := by
  simp only [Char.isUpper, Bool.and_eq_true, decide_eq_true_eq, Char.toNat, ge_iff_le]
  constructor
  · rintro ⟨h1, h2⟩
    exact ⟨h1, h2⟩
  · rintro ⟨h1, h2⟩
    exact ⟨h1, h2⟩

/-- An ASCII capital and the small letter 32 places above it have the same
lower-case form. -/
theorem toLowerRune_pair (U : Char → Char) (x y : Char)
    (hx : x.isUpper = true) (hy : y.toNat = x.toNat + 32) :
    toLowerRune U x = toLowerRune U y := by
  obtain ⟨h1, h2⟩ := (isUpper_iff x).mp hx
  have hxl : x.toLower = y := char_eq_of_toNat_eq _ _ (by rw [toLower_upper x h1 h2, hy])
  have hyl : y.toLower = y := toLower_not_upper y (by omega)
  simp only [toLowerRune]
  rw [if_pos (by omega), if_pos (by omega), hxl, hyl]

theorem toLowerRune_of_sameLetter (U : Char → Char) (x y : Char)
    (h : sameLetter U x y = true) : toLowerRune U x = toLowerRune U y := by
  simp only [sameLetter, Bool.or_eq_true, Bool.and_eq_true, beq_iff_eq, decide_eq_true_eq] at h
  rcases h with ((h | h) | h) | ⟨_, (h | h) | h⟩
  · rw [h]
  · exact toLowerRune_pair U x y h.1 h.2
  · exact (toLowerRune_pair U y x h.1 h.2).symm
  · obtain ⟨⟨hx, hy⟩, hxy⟩ := h
    simp only [toLowerRune]
    rw [if_neg (by omega), if_neg (by omega), hxy]
  · obtain ⟨⟨hx, hy⟩, hxy⟩ := h
    simp only [toLowerRune]
    rw [if_neg (by omega), if_pos hy, hxy]
  · obtain ⟨⟨hx, hy⟩, hxy⟩ := h
    simp only [toLowerRune]
    rw [if_pos hx, if_neg (by omega), hxy]

/-- The same letter up to casing is white space in both forms or in neither. -/
theorem isSpace_of_sameLetter (U : Char → Char) (x y : Char)
    (h : sameLetter U x y = true) : isSpace x = isSpace y := by
  simp only [sameLetter, Bool.or_eq_true, Bool.and_eq_true, beq_iff_eq, decide_eq_true_eq,
    Bool.not_eq_true'] at h
  rcases h with ((h | h) | h) | ⟨⟨hx, hy⟩, _⟩
  · rw [h]
  · obtain ⟨h1, h2⟩ := (isUpper_iff x).mp h.1
    rw [isSpace_false_of_letter x (by omega) (by omega),
      isSpace_false_of_letter y (by omega) (by omega)]
  · obtain ⟨h1, h2⟩ := (isUpper_iff y).mp h.1
    rw [isSpace_false_of_letter x (by omega) (by omega),
      isSpace_false_of_letter y (by omega) (by omega)]
  · rw [hx, hy]

theorem forall₂_dropWhile_isSpace (U : Char → Char) (xs ys : List Char)
    (h : List.Forall₂ (fun x y => sameLetter U x y = true) xs ys) :
    List.Forall₂ (fun x y => sameLetter U x y = true)
      (xs.dropWhile isSpace) (ys.dropWhile isSpace) := by
  induction h with
  | nil => exact List.Forall₂.nil
  | cons hxy hrest ih =>
    rename_i x y xs1 ys1
    have hsp := isSpace_of_sameLetter U x y hxy
    cases hy : isSpace y with
    | true =>
      rw [hy] at hsp
      rw [List.dropWhile_cons, List.dropWhile_cons, hsp, hy]
      exact ih
    | false =>
      rw [hy] at hsp
      rw [List.dropWhile_cons, List.dropWhile_cons, hsp, hy]
      exact List.Forall₂.cons hxy hrest

/-- Trimming keeps two texts that differ only in letter casing in step. -/
theorem forall₂_trimSpace (U : Char → Char) (a b : String)
    (h : List.Forall₂ (fun x y => sameLetter U x y = true) a.data b.data) :
    List.Forall₂ (fun x y => sameLetter U x y = true)
      (trimSpace a).data (trimSpace b).data := by
  simp only [trimSpace]
  rw [List.forall₂_reverse_iff]
  apply forall₂_dropWhile_isSpace
  rw [List.forall₂_reverse_iff]
  exact forall₂_dropWhile_isSpace U _ _ h

theorem toLowerRune_idem (U : Char → Char)
    (hU : ∀ c : Char, 128 ≤ c.toNat → toLowerRune U (U c) = U c) (c : Char) :
    toLowerRune U (toLowerRune U c) = toLowerRune U c := by
  by_cases h : c.toNat < 128
  · by_cases hup : 65 ≤ c.toNat ∧ c.toNat ≤ 90
    · have hn := toLower_upper c hup.1 hup.2
      have hl : c.toLower.toLower = c.toLower := toLower_not_upper _ (by omega)
      simp only [toLowerRune]
      rw [if_pos h, if_pos (by omega), hl]
    · have hl := toLower_not_upper c hup
      simp only [toLowerRune]
      rw [if_pos h, hl, if_pos h, hl]
  · have h1 : toLowerRune U c = U c := by
      simp only [toLowerRune]
      rw [if_neg h]
    rw [h1]
    exact hU c (by omega)

theorem stringsToLower_idem (U : Char → Char)
    (hU : ∀ c : Char, 128 ≤ c.toNat → toLowerRune U (U c) = U c) (s : String) :
    stringsToLower U (stringsToLower U s) = stringsToLower U s := by
  simp only [stringsToLower, List.map_map]
  congr 1
  apply List.map_congr_left
  intro c _
  exact toLowerRune_idem U hU c

theorem map_toLowerRune_of_forall₂ (U : Char → Char) (xs ys : List Char)
    (h : List.Forall₂ (fun x y => sameLetter U x y = true) xs ys) :
    xs.map (toLowerRune U) = ys.map (toLowerRune U) := by
  induction h with
  | nil => rfl
  | cons hxy _ ih =>
    simp only [List.map_cons]
    rw [toLowerRune_of_sameLetter U _ _ hxy, ih]

theorem forall₂_of_differOnlyInCase (U : Char → Char) (a b : String)
    (h : differOnlyInCase U a b = true) :
    List.Forall₂ (fun x y => sameLetter U x y = true) a.data b.data := by
  rw [List.forall₂_iff_zip]
  simp only [differOnlyInCase, Bool.and_eq_true, decide_eq_true_eq, List.all_eq_true] at h
  exact ⟨h.1, fun {x y} hxy => h.2 (x, y) hxy⟩

/-- Texts that differ only in letter casing have the same trimmed, lowercased
form. -/
theorem stringsToLower_of_differOnlyInCase (U : Char → Char) (a b : String)
    (h : differOnlyInCase U a b = true) :
    stringsToLower U (trimSpace a) = stringsToLower U (trimSpace b) := by
  simp only [stringsToLower]
  congr 1
  exact map_toLowerRune_of_forall₂ U _ _
    (forall₂_trimSpace U a b (forall₂_of_differOnlyInCase U a b h))

/-- C5: for two contract address texts that differ only in letter casing, the
`html` handler writes to the same ResultSet key on a detail page with either
text. The key is the lowercased address (the text as `ChildText` returns it,
lowercased), it is the `ContractAddress` field of the stored record, and
lowercasing it again leaves it unchanged. The case table for runes above ASCII
is a parameter: its images are taken to be lower-case forms, as they are in
Unicode. -/
theorem contract_key_ignores_case (U : Char → Char)
    (hU : ∀ c : Char, 128 ≤ c.toNat → toLowerRune U (U c) = U c)
    (a b : String) (hab : differOnlyInCase U a b = true)
    (path : String) (name supply : Option String) (m : ResultSet) (symbol : String)
    (hpath : isTokenPage path = true)
    (hsym : parseSymbol (childText supply) = .ok symbol) :
    ∃ key md,
      htmlHandler U path name supply (some a) m = .ok (mapSet m key md)
      ∧ htmlHandler U path name supply (some b) m = .ok (mapSet m key md)
      ∧ mapSet m key md key = some md
      ∧ key = stringsToLower U (trimSpace a) ∧ key = stringsToLower U (trimSpace b)
      ∧ md.ContractAddress = key
      ∧ stringsToLower U key = key := by
  refine ⟨stringsToLower U (trimSpace a),
    TokenMetadata.mk (childText name) symbol (stringsToLower U (trimSpace a)),
    ?_, ?_, ?_, rfl, stringsToLower_of_differOnlyInCase U a b hab, rfl,
    stringsToLower_idem U hU _⟩
  · exact htmlHandler_token_path U path name supply (some a) m symbol hpath hsym
  · have := htmlHandler_token_path U path name supply (some b) m symbol hpath hsym
    rw [this, childText_some, ← stringsToLower_of_differOnlyInCase U a b hab]
  · simp [mapSet]

/-- C5 at the address texts `" 0xAbCdEF "` and `" 0xabCDef "`, as they stand in
the document: both give the key `0xabcdef`. -/
theorem contract_key_ignores_case_witness :
    (∀ c : Char, 128 ≤ c.toNat → toLowerRune id (id c) = id c)
    ∧ differOnlyInCase id " 0xAbCdEF " " 0xabCDef " = true
    ∧ isTokenPage "/token/0xAbCdEF" = true
    ∧ parseSymbol (childText (some "21,000 TKN")) = .ok "TKN"
    ∧ stringsToLower id (trimSpace " 0xAbCdEF ") = "0xabcdef"
    ∧ ∃ key md,
      htmlHandler id "/token/0xAbCdEF" (some "Token") (some "21,000 TKN") (some " 0xAbCdEF ")
          emptyResults = .ok (mapSet emptyResults key md)
      ∧ htmlHandler id "/token/0xAbCdEF" (some "Token") (some "21,000 TKN") (some " 0xabCDef ")
          emptyResults = .ok (mapSet emptyResults key md)
      ∧ mapSet emptyResults key md key = some md
      ∧ key = stringsToLower id (trimSpace " 0xAbCdEF ")
      ∧ key = stringsToLower id (trimSpace " 0xabCDef ")
      ∧ md.ContractAddress = key
      ∧ stringsToLower id key = key :=
  have hU : ∀ c : Char, 128 ≤ c.toNat → toLowerRune id (id c) = id c := by
    intro c hc
    simp only [toLowerRune, id]
    rw [if_neg (by omega)]
  have hab : differOnlyInCase id " 0xAbCdEF " " 0xabCDef " = true := by decide
  ⟨hU, hab, rfl, rfl, rfl,
    contract_key_ignores_case id hU " 0xAbCdEF " " 0xabCDef " hab "/token/0xAbCdEF"
      (some "Token") (some "21,000 TKN") emptyResults "TKN" rfl rfl⟩

/-! ## Visits -/

theorem visit_fetchError (U : Char → Char) (st : CrawlState) :
    visit U .fetchError st = .ok st := by
  simp [visit]

theorem applyEntries_cons (m : ResultSet) (e : String × TokenMetadata)
    (es : List (String × TokenMetadata)) :
    applyEntries m (e :: es) = applyEntries (mapSet m e.1 e.2) es := rfl

theorem applyEntries_append (m : ResultSet) (es fs : List (String × TokenMetadata)) :
    applyEntries m (es ++ fs) = applyEntries (applyEntries m es) fs := by
  simp [applyEntries, List.foldl_append]

/-- A detail outcome either leaves the state alone (failed fetch) or stores the
entry of the page; it never panics. -/
theorem visit_detailOutcome (U : Char → Char) (r : Response) (st : CrawlState)
    (h : isDetailOutcome r = true) :
    ∃ ch, visit U r st
      = .ok { results := applyEntries st.results (entryOf U r).toList, numPagesCh := ch } := by
  cases r with
  | fetchError => exact ⟨st.numPagesCh, by simp [visit, entryOf, applyEntries]⟩
  | page path cells texts name supply contract =>
    cases cells with
    | cons c cs => simp [isDetailOutcome, isWellFormedDetail] at h
    | nil =>
      cases name with
      | none => simp [isDetailOutcome, isWellFormedDetail] at h
      | some name =>
        cases supply with
        | none => simp [isDetailOutcome, isWellFormedDetail] at h
        | some supply =>
          cases contract with
          | none => simp [isDetailOutcome, isWellFormedDetail] at h
          | some contract =>
            simp only [isDetailOutcome, isWellFormedDetail, Bool.and_eq_true,
              decide_eq_true_eq] at h
            have hs : parseSymbol (childText (some supply))
                = .ok (String.mk (betweenFirstAndSecondSpace (childText (some supply)).data)) :=
              parseSymbol_of_space _ h.2
            have hh := htmlHandler_token_path U path (some name) (some supply) (some contract)
              st.results _ h.1 hs
            refine ⟨st.numPagesCh ++ texts.map pageCountHandler, ?_⟩
            have he : entryOf U (.page path [] texts (some name) (some supply) (some contract))
                = some (stringsToLower U (trimSpace contract),
                    TokenMetadata.mk (trimSpace name)
                      (String.mk (betweenFirstAndSecondSpace (trimSpace supply).data))
                      (stringsToLower U (trimSpace contract))) := by
              simp only [entryOf, h.1, h.2, Bool.true_and, decide_True, if_true]
            simp only [visit, visitCells, hh, he]
            rfl

theorem visitCells_detailOutcomes (U : Char → Char) (cells : List Response)
    (st : CrawlState) (h : cells.all isDetailOutcome = true) :
    ∃ ch, visitCells U cells st
      = .ok { results := applyEntries st.results (cells.filterMap (entryOf U)),
              numPagesCh := ch } := by
  induction cells generalizing st with
  | nil => exact ⟨st.numPagesCh, by simp [visitCells, applyEntries]⟩
  | cons r rs ih =>
    simp only [List.all_cons, Bool.and_eq_true] at h
    obtain ⟨ch1, h1⟩ := visit_detailOutcome U r st h.1
    obtain ⟨ch2, h2⟩ :=
      ih (CrawlState.mk (applyEntries st.results (entryOf U r).toList) ch1) h.2
    refine ⟨ch2, ?_⟩
    simp only [visitCells, h1, h2]
    cases he : entryOf U r with
    | none => simp [List.filterMap_cons, he, applyEntries]
    | some e => simp [List.filterMap_cons, he, applyEntries]

/-- A listing outcome stores the entries of its successfully fetched detail
pages and nothing else; it never panics. -/
theorem visit_listingOutcome (U : Char → Char) (r : Response) (st : CrawlState)
    (h : isListingOutcome r = true) :
    ∃ ch, visit U r st
      = .ok { results := applyEntries st.results ((cellsOf r).filterMap (entryOf U)),
              numPagesCh := ch } := by
  cases r with
  | fetchError => exact ⟨st.numPagesCh, by simp [visit, cellsOf, applyEntries]⟩
  | page path cells texts name supply contract =>
    simp only [isListingOutcome, Bool.and_eq_true, Bool.not_eq_true'] at h
    obtain ⟨ch1, h1⟩ := visitCells_detailOutcomes U cells st h.2
    refine ⟨ch1 ++ texts.map pageCountHandler, ?_⟩
    simp only [visit, h1, htmlHandler_other_path U path name supply contract _ h.1, cellsOf]

theorem visitPages_listingOutcomes (w : World) (pages : List Int) (st : CrawlState)
    (h : ∀ i ∈ pages, isListingOutcome (w.fetch (listingUrl i)) = true) :
    ∃ ch, visitPages w pages st
      = .ok { results := applyEntries st.results
                ((crawledDetails w pages).filterMap (entryOf w.caseTable)),
              numPagesCh := ch } := by
  induction pages generalizing st with
  | nil => exact ⟨st.numPagesCh, by simp [visitPages, crawledDetails, applyEntries]⟩
  | cons i rest ih =>
    obtain ⟨ch1, h1⟩ := visit_listingOutcome w.caseTable (w.fetch (listingUrl i)) st
      (h i (List.mem_cons_self _ _))
    obtain ⟨ch2, h2⟩ :=
      ih (CrawlState.mk (applyEntries st.results
            ((cellsOf (w.fetch (listingUrl i))).filterMap (entryOf w.caseTable))) ch1)
        (fun j hj => h j (List.mem_cons_of_mem _ hj))
    refine ⟨ch2, ?_⟩
    simp only [visitPages, h1, h2, crawledDetails, List.flatMap_cons, List.filterMap_append,
      applyEntries_append]

/-! ## The loop over listing pages -/

theorem pagesFrom_zero (i : Int) : pagesFrom i 0 = [] := rfl

theorem pagesFrom_succ (i : Int) (k : Nat) :
    pagesFrom i (k + 1) = i :: pagesFrom (i + 1) k := by
  simp only [pagesFrom, List.range_succ_eq_map, List.map_cons, List.map_map]
  congr 1
  · simp
  · apply List.map_congr_left
    intro j _
    simp only [Function.comp, Int.ofNat_eq_coe, Nat.cast_succ]
    ring

theorem wrapInt_of_range (x : Int) (h1 : minInt ≤ x) (h2 : x ≤ maxInt) : wrapInt x = x := by
  simp only [wrapInt, minInt, maxInt, intSize] at *
  omega

theorem wrapInt_le_maxInt (x : Int) : wrapInt x ≤ maxInt := by
  simp only [wrapInt, maxInt, intSize]
  omega

/-- Below the largest `int` the loop visits the listing pages `i .. numPages` in
increasing order and then ends, as soon as the fuel covers its iterations. -/
theorem listingLoop_done (w : World) (k : Nat) :
    ∀ (fuel : Nat) (i numPages : Int) (st st1 : CrawlState) (visited : List String),
      (numPages + 1 - i).toNat = k → minInt ≤ i → numPages < maxInt → k ≤ fuel →
      visitPages w (pagesFrom i k) st = .ok st1 →
      listingLoop w fuel i numPages st visited
        = .done st1 (visited ++ (pagesFrom i k).map listingUrl) := by
  induction k with
  | zero =>
    intro fuel i numPages st st1 visited hk _ _ _ hv
    have hgt : ¬ (i ≤ numPages) := by omega
    simp only [pagesFrom_zero, visitPages, Except.ok.injEq] at hv
    subst hv
    cases fuel <;> simp [listingLoop, hgt, pagesFrom_zero]
  | succ k ih =>
    intro fuel i numPages st st1 visited hk hi hmax hfuel hv
    have hle : i ≤ numPages := by omega
    obtain ⟨fuel, rfl⟩ : ∃ f, fuel = f + 1 := ⟨fuel - 1, by omega⟩
    rw [pagesFrom_succ] at hv ⊢
    simp only [visitPages] at hv
    cases hvis : visit w.caseTable (w.fetch (listingUrl i)) st with
    | error p => simp [hvis] at hv
    | ok st2 =>
      simp only [hvis] at hv
      have hw : wrapInt (i + 1) = i + 1 :=
        wrapInt_of_range _ (by omega) (by omega)
      simp only [listingLoop, hle, if_true, hvis, hw]
      rw [ih fuel (i + 1) numPages st2 st1 (visited ++ [listingUrl i]) (by omega) (by omega)
        hmax (by omega) hv]
      simp

/-- With the largest `int` as page count the loop condition `i <= numPages` holds
for every value of the counter, so the loop never ends (as long as no visit
panics). -/
theorem listingLoop_maxInt (w : World)
    (hvisit : ∀ url st, ∃ st1, visit w.caseTable (w.fetch url) st = .ok st1)
    (fuel : Nat) :
    ∀ (i : Int) (st : CrawlState) (visited : List String), i ≤ maxInt →
      listingLoop w fuel i maxInt st visited = .outOfFuel := by
  induction fuel with
  | zero =>
    intro i st visited hi
    simp [listingLoop, hi]
  | succ fuel ih =>
    intro i st visited hi
    obtain ⟨st1, h1⟩ := hvisit (listingUrl i) st
    simp only [listingLoop, hi, if_true, h1]
    exact ih _ _ _ (wrapInt_le_maxInt _)

/-! ## C2 -/

theorem visitCells_cons (U : Char → Char) (r : Response) (rs : List Response)
    (st : CrawlState) :
    visitCells U (r :: rs) st
      = (match visit U r st with
        | .error p => .error p
        | .ok st1 => visitCells U rs st1) := by
  simp only [visitCells]

theorem visit_page_of_cells_error (U : Char → Char) (path : String) (cells : List Response)
    (texts : List String) (name supply contract : Option String) (st : CrawlState)
    (p : Panic) (h : visitCells U cells st = .error p) :
    visit U (.page path cells texts name supply contract) st = .error p := by
  simp only [visit, h]

/-- A crawl whose second detail page has a summary text without a space ends in
the panic of `parseSymbol`. -/
theorem scrapeTokens_worldWithSummary (summary : String) (h : ' ' ∉ summary.data)
    (outputFile : String) (fuel : Nat) :
    scrapeTokens (worldWithSummary summary) outputFile fuel
      = some (.panicked (.indexOutOfRange 1 1) [listingUrl 1]) := by
  have hA : visit id detailA { results := emptyResults, numPagesCh := [] }
      = .ok { results := mapSet emptyResults "0xaaa"
                { Name := "Alpha", Symbol := "AAA", ContractAddress := "0xaaa" },
              numPagesCh := [] } := rfl
  have hpath : isTokenPage "/token/0xBBB" = true := rfl
  have hB : ∀ st, visit id (detailWithSummary summary) st
      = .error (.indexOutOfRange 1 1) := by
    intro st
    simp only [detailWithSummary, visit, visitCells]
    rw [htmlHandler_panics id _ (some "Beta") (some summary) (some "0xBBB") _ hpath
      (fun hmem => h (mem_of_mem_trimSpace _ _ hmem))]
  have hcells : visitCells id [detailA, detailWithSummary summary, detailC]
      { results := emptyResults, numPagesCh := [] } = .error (.indexOutOfRange 1 1) := by
    rw [visitCells_cons, hA]
    simp only
    rw [visitCells_cons, hB]
  have hpage : visit (worldWithSummary summary).caseTable
      ((worldWithSummary summary).fetch (listingUrl 1))
      { results := emptyResults, numPagesCh := [] } = .error (.indexOutOfRange 1 1) := by
    simp only [worldWithSummary, worldWith, if_true]
    exact visit_page_of_cells_error id _ _ _ _ _ _ _ _ hcells
  simp only [scrapeTokens, hpage]

/-- C2 on the code: a summary text without a space (such as `"1,000,000"` or the
empty text) makes `parseSymbol` panic, and on a crawl whose second detail page
has such a summary text the panic unwinds `scrapeTokens`: the run ends with exit
status 2 after the visit of listing page 1, before the third token is visited
and before `writeMetadataJson` is reached. -/
theorem scrapeTokens_panics_without_symbol (fuel : Nat) :
    (∀ s : String, ' ' ∉ s.data → parseSymbol s = .error (.indexOutOfRange 1 1))
    ∧ (∀ s : String, ' ' ∉ s.data →
        scrapeTokens (worldWithSummary s) DefaultMetadataFile fuel
          = some (.panicked (.indexOutOfRange 1 1) [listingUrl 1]))
    ∧ scrapeTokens (worldWithSummary "1,000,000") DefaultMetadataFile fuel
        = some (.panicked (.indexOutOfRange 1 1) [listingUrl 1])
    ∧ scrapeTokens (worldWithSummary "") DefaultMetadataFile fuel
        = some (.panicked (.indexOutOfRange 1 1) [listingUrl 1])
    ∧ (scrapeTokens (worldWithSummary "1,000,000") DefaultMetadataFile fuel).bind exitStatus
        = some 2 := by
  have h : scrapeTokens (worldWithSummary "1,000,000") DefaultMetadataFile fuel
      = some (.panicked (.indexOutOfRange 1 1) [listingUrl 1]) := rfl
  refine ⟨parseSymbol_no_space, fun s hs => scrapeTokens_worldWithSummary s hs _ fuel, h, rfl,
    ?_⟩
  rw [h]
  rfl

/-! ## C7 -/

/-- C7 on the code: when `ioutil.WriteFile` fails, `writeMetadataJson` returns a
non-nil error, `scrapeTokens` drops it, and `main` ends with exit status 0; in
general the exit status of a run that reaches `writeMetadataJson` is 0 whatever
that call returns. -/
theorem main_exit_zero_on_write_error (fuel : Nat) :
    (∃ visited results msg,
      main worldWriteFails none fuel = some (.finished visited results (.error msg))
      ∧ writeMetadataJson worldWriteFails results DefaultMetadataFile = .error msg
      ∧ (main worldWriteFails none fuel).bind exitStatus = some 0)
    ∧ (∀ (w : World) (flagM : Option String) visited results persist,
        main w flagM fuel = some (.finished visited results persist) →
        (main w flagM fuel).bind exitStatus = some 0) := by
  refine ⟨?_, ?_⟩
  · cases fuel with
    | zero => exact ⟨_, _, _, rfl, rfl, rfl⟩
    | succ n => exact ⟨_, _, _, rfl, rfl, rfl⟩
  · intro w flagM visited results persist h
    rw [h]
    rfl

/-! ## C9 -/

/-- Without a sender on `numPagesCh` after the visit of listing page 1 the run
stays in the receive. -/
theorem scrapeTokens_blocked (w : World) (outputFile : String) (fuel : Nat)
    (st1 : CrawlState)
    (hv : visit w.caseTable (w.fetch (listingUrl 1))
      { results := emptyResults, numPagesCh := [] } = .ok st1)
    (hch : st1.numPagesCh = []) :
    scrapeTokens w outputFile fuel = some (.blocked [listingUrl 1] st1.results) := by
  simp [scrapeTokens, hv, hch, recv]

/-- C9 on the code: when no element matches the pagination selector, or the
fetch of listing page 1 fails, no goroutine ever sends into `numPagesCh`, the
page count does not resolve to any value, and `scrapeTokens` stays in the
receive: it does not return and does not reach `writeMetadataJson`. -/
theorem scrapeTokens_blocks_without_pagination (fuel : Nat) :
    discoverPageCount worldNoPagination = none
    ∧ (∃ results, scrapeTokens worldNoPagination DefaultMetadataFile fuel
        = some (.blocked [listingUrl 1] results))
    ∧ discoverPageCount worldPage1Fails = none
    ∧ (∃ results, scrapeTokens worldPage1Fails DefaultMetadataFile fuel
        = some (.blocked [listingUrl 1] results))
    ∧ (∀ (w : World) (outputFile : String),
        w.fetch (listingUrl 1) = .fetchError →
        scrapeTokens w outputFile fuel = some (.blocked [listingUrl 1] emptyResults)) := by
  refine ⟨rfl, ⟨_, rfl⟩, rfl, ⟨_, rfl⟩, ?_⟩
  intro w outputFile hf
  exact scrapeTokens_blocked w outputFile fuel { results := emptyResults, numPagesCh := [] }
    (by rw [hf]; exact visit_fetchError _ _) rfl

/-! ## C4 -/

theorem discoverPageCount_spec (w : World) (N : Int) (h : discoverPageCount w = some N) :
    ∃ st1, visit w.caseTable (w.fetch (listingUrl 1))
        { results := emptyResults, numPagesCh := [] } = .ok st1
      ∧ recv st1.numPagesCh w.sched = some N := by
  unfold discoverPageCount at h
  cases hv : visit w.caseTable (w.fetch (listingUrl 1))
      { results := emptyResults, numPagesCh := [] } with
  | error p => simp [hv] at h
  | ok st1 =>
    simp only [hv] at h
    exact ⟨st1, rfl, h⟩

theorem listingPages_eq (N : Int) : listingPages N = pagesFrom 1 (max N 1).toNat := by
  have hk : (max N 1).toNat = (N - 1).toNat + 1 := by omega
  rw [hk, pagesFrom_succ]
  rfl

theorem mem_pagesFrom (i j : Int) (k : Nat) :
    j ∈ pagesFrom i k ↔ i ≤ j ∧ j < i + k := by
  simp only [pagesFrom, List.mem_map, List.mem_range, Int.ofNat_eq_coe]
  constructor
  · rintro ⟨a, ha, rfl⟩
    omega
  · rintro ⟨h1, h2⟩
    exact ⟨(j - i).toNat, by omega, by omega⟩

theorem pagesFrom_increasing (i : Int) (k : Nat) :
    (pagesFrom i k).Pairwise (fun a b => a < b) := by
  simp only [pagesFrom, List.pairwise_map, Int.ofNat_eq_coe]
  exact (List.pairwise_lt_range k).imp (fun h => by omega)

/-- The listing pages of a crawl below the largest `int`: when page 1 yields the
page count `N < maxInt` and no visit panics, `scrapeTokens` requests the listing
URLs of the pages `1, 2, ..., N` in this order (page 1 alone when `N ≤ 1`), each
page once and in increasing order, and then calls `writeMetadataJson`. -/
theorem scrapeTokens_listing_visits (w : World) (outputFile : String) (N : Int) (fuel : Nat)
    (hN : discoverPageCount w = some N) (hmax : N < maxInt) (hfuel : N.toNat ≤ fuel)
    (hvisit : ∀ url st, ∃ st1, visit w.caseTable (w.fetch url) st = .ok st1) :
    (∃ results,
      scrapeTokens w outputFile fuel
        = some (.finished ((listingPages N).map listingUrl) results
            (writeMetadataJson w results outputFile)))
    ∧ (∀ i, i ∈ listingPages N ↔ 1 ≤ i ∧ i ≤ max N 1)
    ∧ (listingPages N).Pairwise (fun a b => a < b)
    ∧ (listingPages N).head? = some 1 := by
  obtain ⟨st1, hv1, hrecv⟩ := discoverPageCount_spec w N hN
  have hpages : ∀ (pages : List Int) (st : CrawlState),
      ∃ st2, visitPages w pages st = .ok st2 := by
    intro pages
    induction pages with
    | nil => exact fun st => ⟨st, rfl⟩
    | cons i rest ih =>
      intro st
      obtain ⟨st2, h2⟩ := hvisit (listingUrl i) st
      obtain ⟨st3, h3⟩ := ih st2
      exact ⟨st3, by simp [visitPages, h2, h3]⟩
  obtain ⟨st2, h2⟩ := hpages (pagesFrom 2 (N - 1).toNat) st1
  have hloop := listingLoop_done w (N - 1).toNat fuel 2 N st1 st2 [listingUrl 1]
    (by omega) (by simp [minInt, intSize]) hmax (by omega) h2
  refine ⟨⟨st2.results, ?_⟩, ?_, ?_, rfl⟩
  · simp only [scrapeTokens, hv1, hrecv, hloop, listingPages, List.map_cons]
    rfl
  · intro i
    rw [listingPages_eq, mem_pagesFrom]
    omega
  · rw [listingPages_eq]
    exact pagesFrom_increasing _ _

theorem visit_ok_of_listingOutcome (w : World)
    (h : ∀ url, isListingOutcome (w.fetch url) = true) (url : String) (st : CrawlState) :
    ∃ st1, visit w.caseTable (w.fetch url) st = .ok st1 := by
  obtain ⟨ch, hv⟩ := visit_listingOutcome w.caseTable (w.fetch url) st (h url)
  exact ⟨_, hv⟩

theorem worldWith_listing (page1 : Response) (writeErr : Option String)
    (h : isListingOutcome page1 = true) (url : String) :
    isListingOutcome ((worldWith page1 writeErr).fetch url) = true := by
  simp only [worldWith]
  split_ifs
  · exact h
  · rfl

theorem worldPartialFailure_listing (url : String) :
    isListingOutcome (worldPartialFailure.fetch url) = true := by
  simp only [worldPartialFailure]
  split_ifs <;> rfl

/-- The crawl `worldPartialFailure` has page count 2 and requests the listing
pages 1 and 2. -/
theorem scrapeTokens_listing_visits_example :
    discoverPageCount worldPartialFailure = some 2
    ∧ ((∃ results,
      scrapeTokens worldPartialFailure DefaultMetadataFile 2
        = some (.finished ((listingPages 2).map listingUrl) results
            (writeMetadataJson worldPartialFailure results DefaultMetadataFile)))
    ∧ (∀ i, i ∈ listingPages 2 ↔ 1 ≤ i ∧ i ≤ max 2 1)
    ∧ (listingPages 2).Pairwise (fun a b => a < b)
    ∧ (listingPages 2).head? = some 1) :=
  ⟨rfl, scrapeTokens_listing_visits worldPartialFailure DefaultMetadataFile 2 2 rfl
    (by decide) (by decide)
    (visit_ok_of_listingOutcome worldPartialFailure worldPartialFailure_listing)⟩

/-- C4 on the code: for a page count `N` below the largest `int`, in a run where
no visit panics, `scrapeTokens` requests exactly the listing pages `1 .. N` in
increasing order (page 1 alone when `N ≤ 1`). With the pagination text
`9223372036854775807` the page count is the largest `int`; the loop counter
wraps from `maxInt` to `minInt`, the condition `i <= numPages` never fails, and
`scrapeTokens` is still in its loop after any number of iterations: it requests
more than the pages `1 .. N` and never reaches `writeMetadataJson`. -/
theorem scrapeTokens_loops_at_maxInt (fuel : Nat) :
    discoverPageCount worldMaxPages = some maxInt
    ∧ wrapInt (maxInt + 1) = minInt
    ∧ minInt ≤ maxInt
    ∧ scrapeTokens worldMaxPages DefaultMetadataFile fuel = none
    ∧ (∀ (w : World) (outputFile : String) (N : Int),
        discoverPageCount w = some N → N < maxInt → N.toNat ≤ fuel →
        (∀ url st, ∃ st1, visit w.caseTable (w.fetch url) st = .ok st1) →
        ∃ results, scrapeTokens w outputFile fuel
          = some (.finished ((listingPages N).map listingUrl) results
              (writeMetadataJson w results outputFile))) := by
  refine ⟨rfl, by decide, by decide, ?_, ?_⟩
  · have hv : visit worldMaxPages.caseTable (worldMaxPages.fetch (listingUrl 1))
        { results := emptyResults, numPagesCh := [] }
        = .ok { results := emptyResults, numPagesCh := [maxInt] } := rfl
    have hloop := listingLoop_maxInt worldMaxPages
      (visit_ok_of_listingOutcome worldMaxPages (worldWith_listing _ _ rfl)) fuel 2
      { results := emptyResults, numPagesCh := [maxInt] } [listingUrl 1] (by decide)
    simp only [scrapeTokens, hv]
    have hr : recv [maxInt] worldMaxPages.sched = some maxInt := rfl
    simp only [hr, hloop]
  · intro w outputFile N hN hmax hfuel hvisit
    exact (scrapeTokens_listing_visits w outputFile N fuel hN hmax hfuel hvisit).1

/-! ## C8 -/

theorem applyEntries_of_not_mem (es : List (String × TokenMetadata)) (m : ResultSet)
    (k : String) (h : k ∉ es.map Prod.fst) : applyEntries m es k = m k := by
  induction es generalizing m with
  | nil => rfl
  | cons e es ih =>
    simp only [List.map_cons, List.mem_cons, not_or] at h
    rw [applyEntries_cons, ih _ h.2]
    simp [mapSet, h.1]

theorem applyEntries_of_mem (es : List (String × TokenMetadata)) (m : ResultSet)
    (k : String) (md : TokenMetadata) (hnd : (es.map Prod.fst).Nodup) (h : (k, md) ∈ es) :
    applyEntries m es k = some md := by
  induction es generalizing m with
  | nil => simp at h
  | cons e es ih =>
    simp only [List.map_cons, List.nodup_cons] at hnd
    rw [applyEntries_cons]
    rcases List.mem_cons.mp h with h1 | h1
    · subst h1
      rw [applyEntries_of_not_mem es _ _ hnd.1]
      simp [mapSet]
    · exact ih _ hnd.2 h1

theorem applyEntries_some (es : List (String × TokenMetadata)) (m : ResultSet)
    (k : String) (md : TokenMetadata) (h : applyEntries m es k = some md) :
    (k, md) ∈ es ∨ m k = some md := by
  induction es generalizing m with
  | nil => exact Or.inr h
  | cons e es ih =>
    rw [applyEntries_cons] at h
    rcases ih _ h with h1 | h1
    · exact Or.inl (List.mem_cons_of_mem _ h1)
    · by_cases hk : k = e.1
      · simp only [mapSet, hk, if_true, Option.some.injEq] at h1
        left
        rw [hk, ← h1]
        exact List.mem_cons_self _ _
      · simp only [mapSet, hk, if_false] at h1
        exact Or.inr h1

/-- A detail outcome other than a failed fetch stands for an entry, keyed by
the address stored in it. -/
theorem entryOf_of_detailOutcome (U : Char → Char) (d : Response)
    (h : isDetailOutcome d = true) (hne : d ≠ .fetchError) :
    ∃ key md, entryOf U d = some (key, md) ∧ md.ContractAddress = key := by
  cases d with
  | fetchError => exact absurd rfl hne
  | page path cells texts name supply contract =>
    cases cells with
    | cons c cs => simp [isDetailOutcome, isWellFormedDetail] at h
    | nil =>
      cases name with
      | none => simp [isDetailOutcome, isWellFormedDetail] at h
      | some name =>
        cases supply with
        | none => simp [isDetailOutcome, isWellFormedDetail] at h
        | some supply =>
          cases contract with
          | none => simp [isDetailOutcome, isWellFormedDetail] at h
          | some contract =>
            simp only [isDetailOutcome, isWellFormedDetail] at h
            exact ⟨stringsToLower U (trimSpace contract),
              TokenMetadata.mk (trimSpace name)
                (String.mk (betweenFirstAndSecondSpace (trimSpace supply).data))
                (stringsToLower U (trimSpace contract)),
              by simp only [entryOf, h, if_true], rfl⟩

theorem detailOutcome_of_mem_crawledDetails (w : World) (pages : List Int)
    (h : ∀ i ∈ pages, isListingOutcome (w.fetch (listingUrl i)) = true)
    (d : Response) (hd : d ∈ crawledDetails w pages) : isDetailOutcome d = true := by
  simp only [crawledDetails, List.mem_flatMap] at hd
  obtain ⟨i, hi, hmem⟩ := hd
  have hl := h i hi
  cases hr : w.fetch (listingUrl i) with
  | fetchError => simp [hr, cellsOf] at hmem
  | page path cells texts name supply contract =>
    rw [hr] at hl hmem
    simp only [isListingOutcome, Bool.and_eq_true, List.all_eq_true] at hl
    exact hl.2 d hmem

/-- Containment of failed fetches in a crawl that gets a page count: when the
receive on `numPagesCh` yields `N` below the largest `int`, every token-link
visit either fails or yields a well-formed detail page, and the successfully
fetched pages have pairwise distinct lowercased contract addresses, then
`scrapeTokens` visits all listing pages, calls `writeMetadataJson` and returns;
the final ResultSet holds, for each successfully fetched detail page, its entry
under its lowercased address, and holds no other entry, so none for a page
whose fetch failed. A failed fetch leaves the state as it was. -/
theorem containment_with_page_count (w : World) (outputFile : String) (N : Int) (fuel : Nat)
    (hlisting : ∀ i ∈ listingPages N, isListingOutcome (w.fetch (listingUrl i)) = true)
    (hN : discoverPageCount w = some N) (hmax : N < maxInt) (hfuel : N.toNat ≤ fuel)
    (hdistinct : (((crawledDetails w (listingPages N)).filterMap
      (entryOf w.caseTable)).map Prod.fst).Nodup) :
    ∃ results,
      scrapeTokens w outputFile fuel
        = some (.finished ((listingPages N).map listingUrl) results
            (writeMetadataJson w results outputFile))
      ∧ (∀ d ∈ crawledDetails w (listingPages N), d ≠ .fetchError →
          ∃ key md, entryOf w.caseTable d = some (key, md) ∧ md.ContractAddress = key
            ∧ results key = some md)
      ∧ (∀ key md, results key = some md →
          ∃ d ∈ crawledDetails w (listingPages N), d ≠ .fetchError
            ∧ entryOf w.caseTable d = some (key, md))
      ∧ entryOf w.caseTable .fetchError = none
      ∧ (∀ st, visit w.caseTable .fetchError st = .ok st) := by
  obtain ⟨st1, hv1, hrecv⟩ := discoverPageCount_spec w N hN
  obtain ⟨ch, hall⟩ := visitPages_listingOutcomes w (listingPages N)
    { results := emptyResults, numPagesCh := [] } hlisting
  have hrest : visitPages w (pagesFrom 2 (N - 1).toNat) st1
      = .ok { results := applyEntries emptyResults
                ((crawledDetails w (listingPages N)).filterMap (entryOf w.caseTable)),
              numPagesCh := ch } := by
    have := hall
    simp only [listingPages, visitPages, hv1] at this
    exact this
  have hloop := listingLoop_done w (N - 1).toNat fuel 2 N st1 _ [listingUrl 1]
    (by omega) (by simp [minInt, intSize]) hmax (by omega) hrest
  refine ⟨applyEntries emptyResults
      ((crawledDetails w (listingPages N)).filterMap (entryOf w.caseTable)), ?_, ?_, ?_, rfl,
    fun st => visit_fetchError _ st⟩
  · simp only [scrapeTokens, hv1, hrecv, hloop, listingPages, List.map_cons]
    rfl
  · intro d hd hne
    obtain ⟨key, md, he, hc⟩ := entryOf_of_detailOutcome w.caseTable d
      (detailOutcome_of_mem_crawledDetails w _ hlisting d hd) hne
    refine ⟨key, md, he, hc, ?_⟩
    apply applyEntries_of_mem _ _ _ _ hdistinct
    exact List.mem_filterMap.mpr ⟨d, hd, he⟩
  · intro key md hres
    rcases applyEntries_some _ _ _ _ hres with h1 | h1
    · obtain ⟨d, hd, he⟩ := List.mem_filterMap.mp h1
      refine ⟨d, hd, ?_, he⟩
      intro hf
      rw [hf] at he
      simp [entryOf] at he
    · simp [emptyResults] at h1

/-- The crawl `worldPartialFailure`: the fetch of the second token of listing
page 1 fails, and the ResultSet ends with the entries of `AAA`, `CCC` and `DDD`
and no other. -/
theorem containment_with_page_count_example :
    discoverPageCount worldPartialFailure = some 2
    ∧ crawledDetails worldPartialFailure (listingPages 2)
        = [detailA, .fetchError, detailC, detailD]
    ∧ (((crawledDetails worldPartialFailure (listingPages 2)).filterMap
        (entryOf worldPartialFailure.caseTable)).map Prod.fst) = ["0xaaa", "0xccc", "0xddd"]
    ∧ ∃ results,
      scrapeTokens worldPartialFailure DefaultMetadataFile 2
        = some (.finished ((listingPages 2).map listingUrl) results
            (writeMetadataJson worldPartialFailure results DefaultMetadataFile))
      ∧ (∀ d ∈ crawledDetails worldPartialFailure (listingPages 2), d ≠ .fetchError →
          ∃ key md, entryOf worldPartialFailure.caseTable d = some (key, md)
            ∧ md.ContractAddress = key ∧ results key = some md)
      ∧ (∀ key md, results key = some md →
          ∃ d ∈ crawledDetails worldPartialFailure (listingPages 2), d ≠ .fetchError
            ∧ entryOf worldPartialFailure.caseTable d = some (key, md))
      ∧ entryOf worldPartialFailure.caseTable .fetchError = none
      ∧ (∀ st, visit worldPartialFailure.caseTable .fetchError st = .ok st) :=
  have hkeys : (((crawledDetails worldPartialFailure (listingPages 2)).filterMap
      (entryOf worldPartialFailure.caseTable)).map Prod.fst) = ["0xaaa", "0xccc", "0xddd"] :=
    rfl
  ⟨rfl, rfl, hkeys,
    containment_with_page_count worldPartialFailure DefaultMetadataFile 2 2
      (fun i _ => worldPartialFailure_listing (listingUrl i)) rfl (by decide) (by decide)
      (by rw [hkeys]; decide)⟩

/-- C8 on the code: the crawl `worldPartialNoPagination` meets the conditions of
the claim (of its three token links one fails, the other two lead to well-formed
detail pages with distinct addresses), and the failed fetch is contained: after
the visit of listing page 1 the map holds the entries of `AAA` and `CCC` and no
other. But listing page 1 has no pagination element, so `scrapeTokens` stays in
the receive on `numPagesCh`: the map is never persisted and the process does
not exit. In a crawl that does get a page count below the largest `int`, the
run ends with a persist of exactly the entries of the successfully fetched
detail pages. -/
theorem partial_failure_never_persisted (fuel : Nat) :
    isListingOutcome (worldPartialNoPagination.fetch (listingUrl 1)) = true
    ∧ crawledDetails worldPartialNoPagination [1] = [detailA, .fetchError, detailC]
    ∧ ((crawledDetails worldPartialNoPagination [1]).filterMap
        (entryOf worldPartialNoPagination.caseTable)).map Prod.fst = ["0xaaa", "0xccc"]
    ∧ discoverPageCount worldPartialNoPagination = none
    ∧ (∃ results,
        scrapeTokens worldPartialNoPagination DefaultMetadataFile fuel
          = some (.blocked [listingUrl 1] results)
        ∧ results "0xaaa"
          = some { Name := "Alpha", Symbol := "AAA", ContractAddress := "0xaaa" }
        ∧ results "0xccc"
          = some { Name := "Gamma", Symbol := "CCC", ContractAddress := "0xccc" }
        ∧ (∀ key, key ≠ "0xaaa" → key ≠ "0xccc" → results key = none))
    ∧ (scrapeTokens worldPartialNoPagination DefaultMetadataFile fuel).bind exitStatus = none
    ∧ (∀ (w : World) (outputFile : String) (N : Int),
        (∀ i ∈ listingPages N, isListingOutcome (w.fetch (listingUrl i)) = true) →
        discoverPageCount w = some N → N < maxInt → N.toNat ≤ fuel →
        (((crawledDetails w (listingPages N)).filterMap
          (entryOf w.caseTable)).map Prod.fst).Nodup →
        ∃ results,
          scrapeTokens w outputFile fuel
            = some (.finished ((listingPages N).map listingUrl) results
                (writeMetadataJson w results outputFile))
          ∧ (∀ d ∈ crawledDetails w (listingPages N), d ≠ .fetchError →
              ∃ key md, entryOf w.caseTable d = some (key, md) ∧ md.ContractAddress = key
                ∧ results key = some md)
          ∧ (∀ key md, results key = some md →
              ∃ d ∈ crawledDetails w (listingPages N), d ≠ .fetchError
                ∧ entryOf w.caseTable d = some (key, md))) := by
  refine ⟨rfl, rfl, rfl, rfl,
    ⟨mapSet (mapSet emptyResults "0xaaa" (TokenMetadata.mk "Alpha" "AAA" "0xaaa")) "0xccc"
        (TokenMetadata.mk "Gamma" "CCC" "0xccc"), rfl, rfl, rfl, ?_⟩, rfl, ?_⟩
  · intro key h1 h2
    simp [mapSet, emptyResults, h1, h2]
  · intro w outputFile N hlisting hN hmax hfuel hdistinct
    obtain ⟨results, h1, h2, h3, _⟩ :=
      containment_with_page_count w outputFile N fuel hlisting hN hmax hfuel hdistinct
    exact ⟨results, h1, h2, h3⟩

end Erc20Scraper
